import Mathlib

/-!
Verification of the PixelZip batch image-converter / batch-zipper core.

The development shallowly embeds the data model and the operations of the
repository:

* `src/utils/common.ts` — `generateId`, `getZip`;
* `src/utils/imageHelper.ts` — `convertImageToJpg` (dimension logic modelled
  from the spec, see the doc comment on `convertTargetWidth`);
* `src/hooks/useImageConverter.ts` — the image-conversion orchestrator
  (`handleFilesAdded`, `startConversion`, `downloadZip`);
* `src/hooks/useBatchZipper.ts` — the folder-grouping classifier
  (`handleFoldersAdded`);
* `src/components/Dropzone.tsx` — the ingest-time MIME filter
  (`validateAndAddFiles`).

Browser-side effectful primitives (canvas rasterization, JSZip compression,
DOM notifications, `Math.random`) are modelled as explicit parameters: the
per-item conversion is an oracle `File → Except String Blob`, archive
generation is an oracle over the entry list, and the random source is the
sequence of drawn values. State updates performed through React `setState`
callbacks are modelled as explicit state passing; the orchestrator loop is a
fold over the snapshot taken at the start of the run, exactly as the source
takes it.
-/

namespace PixelZip

/-! ## Data model (src/types.ts as used by the source) -/

/-- ConversionStatus from src/types.ts: the per-item lifecycle states. -/
inductive ConversionStatus where
  | IDLE
  | PROCESSING
  | COMPLETED
  | ERROR
  deriving DecidableEq, Repr

/-- Browser File handle: the fields of the DOM File object the source reads
(`name`, `type`, `size`, `webkitRelativePath`).  The payload bytes are
abstracted by an opaque `content` token. -/
structure File where
  name : String
  mimeType : String
  size : Nat
  webkitRelativePath : String
  content : Nat
  deriving DecidableEq, Repr

/-- Browser Blob: an opaque payload with its byte size, as the source only
ever reads `.size` from a produced blob. -/
structure Blob where
  content : Nat
  size : Nat
  deriving DecidableEq, Repr

/-- ConversionConfig from src/types.ts (fields quality, fillColor, scale,
trimRight), numeric values modelled as exact rationals. -/
structure ConversionConfig where
  quality : ℚ
  fillColor : String
  scale : ℚ
  trimRight : Nat
  deriving DecidableEq, Repr

/-- ImageFile work item from src/types.ts, restricted to the fields the
verified operations read or write (`previewUrl`, `width`, `height` and
`originalSize` are carried by the source but never consulted by the
orchestrator logic under verification). -/
structure ImageFile where
  id : ℤ
  file : File
  status : ConversionStatus
  convertedBlob : Option Blob
  convertedSize : Option Nat
  errorMessage : Option String
  deriving DecidableEq, Repr

/-! ## Transform engine dimension logic (spec §4.3)

The copy of src/utils/imageHelper.ts present in this snapshot is an earlier
revision: it neither exports `getImageDimensions` (which both callers
import) nor reads `config.scale` / `config.trimRight`, so the revision of
`convertImageToJpg` that the rest of the source compiles against is absent.
Its dimension computation is therefore modelled from the spec. -/

/-- Modelled from the spec: step (2) of the transform algorithm — target
width `round(nativeWidth * scaleFactor)`, minimum 1. -/
def convertTargetWidth (w : Nat) (config : ConversionConfig) : ℤ :=
  max 1 (round ((w : ℚ) * config.scale))

/-- Modelled from the spec: step (2) of the transform algorithm — target
height `round(nativeHeight * scaleFactor)`, minimum 1. -/
def convertTargetHeight (h : Nat) (config : ConversionConfig) : ℤ :=
  max 1 (round ((h : ℚ) * config.scale))

/-- Modelled from the spec: step (3) of the transform algorithm — the
destination surface is the target dimensions minus `trimRightPixels` in
width, clamped to at least 1. -/
def convertOutputWidth (w : Nat) (config : ConversionConfig) : ℤ :=
  max 1 (convertTargetWidth w config - (config.trimRight : ℤ))

/-- Modelled from the spec: the destination surface height equals the target
height (trimming only affects the width). -/
def convertOutputHeight (h : Nat) (config : ConversionConfig) : ℤ :=
  convertTargetHeight h config

/-! ## Batch orchestrator state (src/hooks/useImageConverter.ts) -/

/-- Oracle for the external `convertImageToJpg` call: the browser decode,
composite and encode pipeline either produces a JPEG blob or throws. -/
def Converter : Type := File → Except String Blob

/-- State owned by the useImageConverter hook: the work-item collection and
the aggregate observables (lines 7, 8, 15). -/
structure ConverterState where
  files : List ImageFile
  isProcessing : Bool
  processedCount : Nat
  deriving DecidableEq, Repr

/-- The setFiles update of line 59: mark the item with the given id as
PROCESSING. -/
def markProcessing (id : ℤ) (files : List ImageFile) : List ImageFile :=
  files.map fun f => if f.id = id then { f with status := .PROCESSING } else f

/-- The setFiles update of lines 63 to 70: on success record COMPLETED
together with the produced blob and its size.  The object spread keeps every
other field, including a previously recorded errorMessage. -/
def markCompleted (id : ℤ) (b : Blob) (files : List ImageFile) : List ImageFile :=
  files.map fun f =>
    if f.id = id then
      { f with status := .COMPLETED, convertedBlob := some b,
               convertedSize := some b.size }
    else f

/-- The setFiles update of lines 74 to 76: on failure record ERROR and the
human-readable detail.  The object spread keeps every other field. -/
def markError (id : ℤ) (files : List ImageFile) : List ImageFile :=
  files.map fun f =>
    if f.id = id then { f with status := .ERROR, errorMessage := some "Failed" }
    else f

/-- One iteration of the conversion loop body (lines 57 to 78): transition
the current snapshot item to PROCESSING, invoke the converter, then record
the outcome; the processed counter is incremented only in the success
branch (line 71). -/
def runItem (convert : Converter) (s : ConverterState) (item : ImageFile) :
    ConverterState :=
  let files1 := markProcessing item.id s.files
  match convert item.file with
  | .ok b =>
      { s with files := markCompleted item.id b files1,
               processedCount := s.processedCount + 1 }
  | .error _ =>
      { s with files := markError item.id files1 }

/-- The snapshot filter of line 55: items not yet COMPLETED. -/
def filesToProcess (s : ConverterState) : List ImageFile :=
  s.files.filter fun f => decide (f.status ≠ ConversionStatus.COMPLETED)

/-- The startConversion run (lines 51 to 80): set the running flag, reset
the processed counter, snapshot the non-completed items, iterate the loop
body sequentially over the snapshot, and clear the running flag.  The model
is a total function: the loop body catches the converter failure, so the run
never throws. -/
def startConversion (convert : Converter) (s : ConverterState) : ConverterState :=
  let s1 : ConverterState := { s with isProcessing := true, processedCount := 0 }
  let s2 := (filesToProcess s).foldl (runItem convert) s1
  { s2 with isProcessing := false }

/-- Combined effect of one loop iteration on an entry carrying the processed
id: the final record update overrides the transient PROCESSING status. -/
def applyOutcome (convert : Converter) (item f : ImageFile) : ImageFile :=
  match convert item.file with
  | .ok b =>
      { f with status := .COMPLETED, convertedBlob := some b,
               convertedSize := some b.size }
  | .error _ =>
      { f with status := .ERROR, errorMessage := some "Failed" }

/-- Whether the converter oracle succeeds on the given item. -/
def convertSucceeds (convert : Converter) (f : ImageFile) : Bool :=
  match convert f.file with
  | .ok _ => true
  | .error _ => false

/-- The invariant claimed for work items: exactly one of
payload-plus-size or error detail is recorded, and neither before the
status leaves IDLE and PROCESSING. -/
def itemWellFormed (f : ImageFile) : Bool :=
  match f.status with
  | .IDLE =>
      decide (f.convertedBlob = none) && decide (f.convertedSize = none) &&
        decide (f.errorMessage = none)
  | .PROCESSING =>
      decide (f.convertedBlob = none) && decide (f.convertedSize = none) &&
        decide (f.errorMessage = none)
  | .COMPLETED =>
      (match f.convertedBlob with
       | some b => decide (f.convertedSize = some b.size)
       | none => false) && decide (f.errorMessage = none)
  | .ERROR =>
      decide (f.convertedBlob = none) && decide (f.convertedSize = none) &&
        !(decide (f.errorMessage = none))

/-- A freshly ingested item, exactly as handleFilesAdded creates it: IDLE
with no recorded payload, size or error. -/
def itemFresh (f : ImageFile) : Bool :=
  decide (f.status = ConversionStatus.IDLE) && decide (f.convertedBlob = none) &&
    decide (f.convertedSize = none) && decide (f.errorMessage = none)

/-- Every intermediate work-item collection produced by the setFiles calls
of one conversion run over the given snapshot: after each PROCESSING
transition and after each outcome transition. -/
def conversionTraceAux (convert : Converter) :
    List ImageFile → List ImageFile → List (List ImageFile)
  | _, [] => []
  | files, item :: rest =>
      let files1 := markProcessing item.id files
      let files2 :=
        match convert item.file with
        | .ok b => markCompleted item.id b files1
        | .error _ => markError item.id files1
      files1 :: files2 :: conversionTraceAux convert files2 rest

/-- Every work-item collection observable during one startConversion run,
starting from the collection at the moment the run begins. -/
def conversionTrace (convert : Converter) (s : ConverterState) :
    List (List ImageFile) :=
  s.files :: conversionTraceAux convert s.files (filesToProcess s)

/-! ## Ingest (src/utils/common.ts generateId, useImageConverter
handleFilesAdded) -/

/-- Model of generateId (src/utils/common.ts line 3),
Math.random().toString(36).substr(2, 9): the produced id is a deterministic
digest of the drawn pseudo-random value — the first nine base-36 fraction
digits of the draw, modelled as the integer `⌊draw * 36 ^ 9⌋`.  Equal draws
therefore yield equal ids. -/
def generateId (draw : ℚ) : ℤ :=
  ⌊draw * 36 ^ 9⌋

/-- The items created by handleFilesAdded (lines 17 to 33) for the new
files, with the successive pseudo-random draws supplied by `draws`,
starting at draw index `k`.  Dimension probing and the preview URL are
browser effects that do not influence the verified fields. -/
def ingestItems (draws : Nat → ℚ) : Nat → List File → List ImageFile
  | _, [] => []
  | k, file :: rest =>
      ⟨generateId (draws k), file, .IDLE, none, none, none⟩ ::
        ingestItems draws (k + 1) rest

/-- handleFilesAdded (lines 17 to 33): append one fresh IDLE work item per
added file to the existing collection. -/
def handleFilesAdded (draws : Nat → ℚ) (newFiles : List File)
    (prev : List ImageFile) : List ImageFile :=
  prev ++ ingestItems draws 0 newFiles

/-! ## Export packaging (useImageConverter downloadZip, lines 82 to 108) -/

/-- Oracle for JSZip generateAsync: archive generation over the appended
entries either yields the archive blob or throws. -/
def ZipGen : Type := List (String × Blob) → Except String Blob

/-- Output naming rule of line 89: strip a trailing .png, .jpg or .jpeg
(case-insensitive) and append .jpg. -/
def outputEntryName (n : String) : String :=
  let lower := n.toLower
  let base :=
    if lower.endsWith ".jpeg" then n.dropRight 5
    else if lower.endsWith ".png" then n.dropRight 4
    else if lower.endsWith ".jpg" then n.dropRight 4
    else n
  base ++ ".jpg"

/-- The entries appended to the fresh archive (lines 85 to 93): one entry
per COMPLETED item whose blob is present. -/
def zipEntries (files : List ImageFile) : List (String × Blob) :=
  (files.filter fun f =>
      decide (f.status = ConversionStatus.COMPLETED) && f.convertedBlob.isSome).filterMap
    fun f => f.convertedBlob.map fun b => (outputEntryName f.file.name, b)

/-- Observable outcome of one downloadZip invocation: the hook state
afterwards, the number of user-facing failure notifications raised, and the
payload handed to the browser for download, if any. -/
structure DownloadResult where
  state : ConverterState
  alerts : Nat
  download : Option Blob
  deriving DecidableEq, Repr

/-- downloadZip (lines 82 to 108): collect the completed items, return
early when there are none, otherwise generate the archive; on failure the
catch block raises exactly one alert.  No branch writes the files, the
processed counter or the running flag. -/
def downloadZip (gen : ZipGen) (s : ConverterState) : DownloadResult :=
  let completedFiles := s.files.filter fun f =>
    decide (f.status = ConversionStatus.COMPLETED) && f.convertedBlob.isSome
  if completedFiles.length = 0 then ⟨s, 0, none⟩
  else
    match gen (zipEntries s.files) with
    | .ok content => ⟨s, 0, some content⟩
    | .error _ => ⟨s, 1, none⟩

/-! ## Ingest-time MIME filter (src/components/Dropzone.tsx, image mode) -/

/-- The admission test of line 90: the declared MIME type is exactly
image/png or image/jpeg. -/
def isSupportedImageType (f : File) : Bool :=
  decide (f.mimeType = "image/png") || decide (f.mimeType = "image/jpeg")

/-- Observable outcome of validateAndAddFiles: the files handed to
onFilesAdded (empty when the callback is not invoked), whether the callback
was invoked at all, and the number of transient error notices raised. -/
structure DropResult where
  added : List File
  callbackInvoked : Bool
  errorNotices : Nat
  deriving DecidableEq, Repr

/-- validateAndAddFiles (lines 79 to 109, image mode): keep exactly the
files whose declared type passes the admission test, raise one transient
error notice when any file was rejected, and invoke the callback only when
at least one file passed. -/
def validateAndAddFiles (fileList : List File) : DropResult :=
  let validFiles := fileList.filter isSupportedImageType
  let hasInvalid := fileList.any fun f => !(isSupportedImageType f)
  ⟨validFiles, !validFiles.isEmpty, if hasInvalid then 1 else 0⟩

/-! ## Folder grouping (src/hooks/useBatchZipper.ts handleFoldersAdded) -/

/-- Character-level split, the semantics of the JavaScript
String.prototype.split with a one-character separator: the first component
is the segment before the first separator, the second the remaining
segments. -/
def splitParts (sep : Char) : List Char → List Char × List (List Char)
  | [] => ([], [])
  | c :: cs =>
      let r := splitParts sep cs
      if c = sep then ([], r.1 :: r.2) else (c :: r.1, r.2)

/-- The pathParts of line 145: webkitRelativePath.split with the slash
separator.  Always a nonempty list; the empty path yields one empty
segment, exactly as in JavaScript. -/
def pathParts (p : String) : List String :=
  let r := splitParts '/' p.toList
  (r.1 :: r.2).map String.mk

/-- The grouping test of line 147: the path contains more than one
segment, i.e. the file lives inside at least one directory. -/
def isGrouped (f : File) : Bool :=
  decide (1 < (pathParts f.webkitRelativePath).length)

/-- The group key of line 148: the first path segment. -/
def rootSegment (f : File) : String :=
  (pathParts f.webkitRelativePath).headD ""

/-- Insertion into the folderGroups record (lines 149 to 152): append the
file to the existing group with this key, or create the group at the end. -/
def addToGroups (groups : List (String × List File)) (key : String) (f : File) :
    List (String × List File) :=
  match groups with
  | [] => [(key, [f])]
  | (k, fs) :: rest =>
      if k = key then (k, fs ++ [f]) :: rest
      else (k, fs) :: addToGroups rest key f

/-- The forEach of lines 143 to 157 with its two accumulators: the named
folder groups and the loose rootFiles. -/
def classifyAux : List File → List (String × List File) × List File →
    List (String × List File) × List File
  | [], acc => acc
  | f :: rest, (groups, roots) =>
      if isGrouped f then
        classifyAux rest (addToGroups groups (rootSegment f) f, roots)
      else
        classifyAux rest (groups, roots ++ [f])

/-- The grouping classifier: partition the dropped files into named
top-level folder groups and the loose root files. -/
def classify (files : List File) : List (String × List File) × List File :=
  classifyAux files ([], [])

/-- Members recorded under a key in the group list; the empty list when the
key is absent. -/
def valOf (key : String) : List (String × List File) → List File
  | [] => []
  | (k, fs) :: rest => if k = key then fs else valOf key rest

/-- ZipTask from src/types.ts, the fields handleFoldersAdded writes. -/
structure ZipTask where
  id : ℤ
  folderName : String
  files : List File
  status : ConversionStatus
  totalSize : Nat
  progress : ℚ
  deriving DecidableEq, Repr

/-- The newTasks construction of lines 159 to 166: one IDLE task per named
group, ids drawn from the successive pseudo-random ids. -/
def tasksOf (gen : Nat → ℤ) : Nat → List (String × List File) → List ZipTask
  | _, [] => []
  | k, (name, fs) :: rest =>
      ⟨gen k, name, fs, .IDLE, (fs.map File.size).sum, 0⟩ ::
        tasksOf gen (k + 1) rest

/-- handleFoldersAdded (lines 138 to 169): the tasks appended to the task
list.  The rootFiles accumulator of the classifier is dropped on the floor:
no task and no other output mentions it. -/
def handleFoldersAdded (gen : Nat → ℤ) (newFiles : List File) : List ZipTask :=
  tasksOf gen 0 (classify newFiles).1

/-! ## Concrete fixtures used by witnesses and counterexamples -/

/-- A 100-byte PNG input. -/
def fileA : File := ⟨"a.png", "image/png", 100, "", 1⟩

/-- A second PNG input, distinct from fileA. -/
def fileB : File := ⟨"b.png", "image/png", 120, "", 2⟩

/-- A PDF input, not admissible at the image dropzone. -/
def filePdf : File := ⟨"doc.pdf", "application/pdf", 900, "", 3⟩

/-- A loose dropped file: its relative path has a single segment. -/
def looseFile : File := ⟨"notes.txt", "text/plain", 10, "notes.txt", 4⟩

/-- A file dropped inside a top-level folder named FolderA. -/
def groupedFile : File := ⟨"img.png", "image/png", 50, "FolderA/sub/img.png", 5⟩

/-- A converter oracle that fails on every input, as an undecodable file
does. -/
def convFail : Converter := fun _ => .error "decode failed"

/-- A converter oracle that succeeds on every input with a 7-byte blob. -/
def convOK : Converter := fun file => .ok ⟨file.content + 100, 7⟩

/-- A converter oracle that fails exactly on the input whose content token
is 3 and succeeds elsewhere. -/
def convThird : Converter := fun file =>
  if file.content = 3 then .error "undecodable" else .ok ⟨file.content + 100, 9⟩

/-- A fresh single-item collection. -/
def oneItemState : ConverterState :=
  ⟨[⟨1, fileA, .IDLE, none, none, none⟩], false, 0⟩

/-- A fresh five-item collection whose third item carries content token 3,
the input convThird rejects. -/
def fiveItemState : ConverterState :=
  ⟨[⟨1, ⟨"p1.png", "image/png", 10, "", 1⟩, .IDLE, none, none, none⟩,
    ⟨2, ⟨"p2.png", "image/png", 10, "", 2⟩, .IDLE, none, none, none⟩,
    ⟨3, ⟨"p3.png", "image/png", 10, "", 3⟩, .IDLE, none, none, none⟩,
    ⟨4, ⟨"p4.png", "image/png", 10, "", 4⟩, .IDLE, none, none, none⟩,
    ⟨5, ⟨"p5.png", "image/png", 10, "", 5⟩, .IDLE, none, none, none⟩], false, 0⟩

/-- A collection holding one already COMPLETED item and one IDLE item. -/
def mixedState : ConverterState :=
  ⟨[⟨1, fileA, .COMPLETED, some ⟨11, 40⟩, some 40, none⟩,
    ⟨2, fileB, .IDLE, none, none, none⟩], false, 1⟩

/-- A placeholder item used as the getD fallback in closed statements. -/
def dummyItem : ImageFile := ⟨0, fileA, .IDLE, none, none, none⟩

/-- A draw sequence that repeats the same pseudo-random value. -/
def constantDraws : Nat → ℚ := fun _ => 1 / 2

/-- A draw sequence with pairwise distinct digests on the first two
indices. -/
def distinctDraws : Nat → ℚ := fun k => (k : ℚ) / 2

/-- A task-id sequence for handleFoldersAdded fixtures. -/
def taskIds : Nat → ℤ := fun k => (k : ℤ)

/-- C1: for every decodable input of native dimensions W×H and every
configuration with a positive scale factor, the output surface has width
`max(1, round(W * scaleFactor) - trimRightPixels)` and height
`max(1, round(H * scaleFactor))`. -/
theorem convertImageToJpg_output_dimensions
    (w h : Nat) (config : ConversionConfig) (hs : 0 < config.scale) :
    convertOutputWidth w config
      = max 1 (round ((w : ℚ) * config.scale) - (config.trimRight : ℤ)) ∧
    convertOutputHeight h config
      = max 1 (round ((h : ℚ) * config.scale)) := by
  constructor
  · unfold convertOutputWidth convertTargetWidth
    have h0 : (0 : ℚ) ≤ (w : ℚ) * config.scale :=
      mul_nonneg (by positivity) (le_of_lt hs)
    have hr : (0 : ℤ) ≤ round ((w : ℚ) * config.scale) := by
      rw [round_eq]
      exact Int.floor_nonneg.mpr (by linarith)
    rcases Int.le_iff_lt_or_eq.mp hr with hpos | hzero
    · have h1 : (1 : ℤ) ≤ round ((w : ℚ) * config.scale) := hpos
      rw [max_eq_right h1]
    · rw [← hzero]
      have ht : (0 : ℤ) - (config.trimRight : ℤ) ≤ 1 := by
        have : (0 : ℤ) ≤ (config.trimRight : ℤ) := Int.ofNat_nonneg _
        omega
      have hmax : max (1 : ℤ) 0 = 1 := by omega
      rw [hmax]
      have h1t : (1 : ℤ) - (config.trimRight : ℤ) ≤ 1 := by
        have : (0 : ℤ) ≤ (config.trimRight : ℤ) := Int.ofNat_nonneg _
        omega
      omega
  · rfl

/-- Witness for C1: the trim-correctness instance of the spec — a 100×50
input with scale factor 1 and 20 pixels trimmed from the right produces an
80×50 output surface. -/
theorem convertImageToJpg_output_dimensions_witness :
    convertOutputWidth 100 ⟨9/10, "#FFFFFF", 1, 20⟩ = 80 ∧
    convertOutputHeight 50 ⟨9/10, "#FFFFFF", 1, 20⟩ = 50 := by
  have h := convertImageToJpg_output_dimensions 100 50
    ⟨9/10, "#FFFFFF", 1, 20⟩ (by norm_num)
  constructor
  · rw [h.1]
    norm_num [round_eq]
  · rw [h.2]
    norm_num [round_eq]

/-! ## Orchestrator loop characterization -/

/-- The outcome update never changes the item id. -/
theorem applyOutcome_id (convert : Converter) (item f : ImageFile) :
    (applyOutcome convert item f).id = f.id := by
  unfold applyOutcome
  cases convert item.file <;> rfl

/-- Net effect of one loop iteration on the collection: the transient
PROCESSING transition is overridden by the outcome transition on the
matching entries, every other entry is untouched. -/
theorem runItem_files (convert : Converter) (s : ConverterState) (item : ImageFile) :
    (runItem convert s item).files =
      s.files.map fun f =>
        if f.id = item.id then applyOutcome convert item f else f := by
  cases hc : convert item.file with
  | ok b =>
      simp only [runItem, markProcessing, markCompleted, applyOutcome, hc,
        List.map_map]
      refine List.map_congr_left fun f _ => ?_
      by_cases hid : f.id = item.id <;> simp [Function.comp, hid]
  | error e =>
      simp only [runItem, markProcessing, markError, applyOutcome, hc,
        List.map_map]
      refine List.map_congr_left fun f _ => ?_
      by_cases hid : f.id = item.id <;> simp [Function.comp, hid]

/-- The processed counter accumulates one unit per successful iteration and
nothing per failed iteration. -/
theorem foldl_runItem_processedCount (convert : Converter) :
    ∀ (L : List ImageFile) (s : ConverterState),
      (L.foldl (runItem convert) s).processedCount
        = s.processedCount + L.countP (convertSucceeds convert)
  | [], s => by simp
  | item :: rest, s => by
      rw [List.foldl_cons, foldl_runItem_processedCount convert rest]
      unfold runItem convertSucceeds
      cases hc : convert item.file <;> simp [hc, List.countP_cons] <;> omega

/-- The loop body never touches the running flag. -/
theorem foldl_runItem_isProcessing (convert : Converter) :
    ∀ (L : List ImageFile) (s : ConverterState),
      (L.foldl (runItem convert) s).isProcessing = s.isProcessing
  | [], _ => rfl
  | item :: rest, s => by
      rw [List.foldl_cons, foldl_runItem_isProcessing convert rest]
      unfold runItem
      cases hc : convert item.file <;> simp [hc]

/-- Folding the loop body over a snapshot with pairwise distinct ids
rewrites each entry according to the first (hence only) snapshot item that
carries its id and leaves all other entries unchanged. -/
theorem foldl_runItem_files (convert : Converter) :
    ∀ (L : List ImageFile) (s : ConverterState),
      (L.map ImageFile.id).Nodup →
      (L.foldl (runItem convert) s).files
        = s.files.map fun f =>
            match L.find? (fun it => it.id == f.id) with
            | some it => applyOutcome convert it f
            | none => f
  | [], s, _ => by simp [List.find?]
  | item :: rest, s, h => by
      simp only [List.map_cons, List.nodup_cons] at h
      rw [List.foldl_cons, foldl_runItem_files convert rest _ h.2]
      rw [runItem_files, List.map_map]
      refine List.map_congr_left fun f _ => ?_
      by_cases hf : f.id = item.id
      · simp only [Function.comp_apply, if_pos hf]
        have hnone : rest.find?
            (fun it => it.id == (applyOutcome convert item f).id) = none := by
          refine List.find?_eq_none.mpr fun x hx => ?_
          simp only [applyOutcome_id, beq_iff_eq]
          intro hxid
          exact h.1 (List.mem_map.mpr ⟨x, hx, by rw [hxid, hf]⟩)
        rw [List.find?_cons_of_pos _ (by simp [hf]), hnone]
      · simp only [Function.comp_apply, if_neg hf]
        rw [List.find?_cons_of_neg _ (by simp; exact fun hc => hf hc.symm)]

/-- Characterization of one startConversion run on a collection with
pairwise distinct ids: every COMPLETED entry is left untouched and every
other entry receives the outcome of its own conversion. -/
theorem startConversion_files (convert : Converter) (s : ConverterState)
    (h : (s.files.map ImageFile.id).Nodup) :
    (startConversion convert s).files
      = s.files.map fun f =>
          if f.status = ConversionStatus.COMPLETED then f
          else applyOutcome convert f f := by
  have hsub : ((filesToProcess s).map ImageFile.id).Nodup :=
    List.Nodup.sublist (List.Sublist.map ImageFile.id (List.filter_sublist s.files)) h
  show ((filesToProcess s).foldl (runItem convert)
      { s with isProcessing := true, processedCount := 0 }).files
    = _
  rw [foldl_runItem_files convert (filesToProcess s) _ hsub]
  refine List.map_congr_left fun f hf => ?_
  by_cases hc : f.status = ConversionStatus.COMPLETED
  · have hnone : (filesToProcess s).find? (fun it => it.id == f.id) = none := by
      refine List.find?_eq_none.mpr fun x hx => ?_
      simp only [beq_iff_eq]
      intro hxid
      have hxf : x = f :=
        List.inj_on_of_nodup_map h (List.mem_of_mem_filter hx) hf hxid
      have hxp := List.of_mem_filter hx
      rw [hxf] at hxp
      simp [hc] at hxp
    rw [hnone, if_pos hc]
  · have hmem : f ∈ filesToProcess s :=
      List.mem_filter.mpr ⟨hf, by simp [hc]⟩
    have hsome : ((filesToProcess s).find? (fun it => it.id == f.id)).isSome :=
      List.find?_isSome.mpr ⟨f, hmem, by simp⟩
    obtain ⟨x, hx⟩ := Option.isSome_iff_exists.mp hsome
    have hpx : (x.id == f.id) = true := by
      simpa using @List.find?_some _ _ _ _ hx
    have hxmem : x ∈ filesToProcess s := List.mem_of_find?_eq_some hx
    have hxf : x = f :=
      List.inj_on_of_nodup_map h (List.mem_of_mem_filter hxmem) hf
        (by simpa using hpx)
    rw [hx, hxf, if_neg hc]

/-- C5 (amended): the processed-count observable is reset at the start of a
run and incremented only when an item completes successfully, so after a
run it equals the number of successes of the snapshot — failures are not
counted, contrary to the original claim (see
`startConversion_processedCount_cex`). -/
theorem startConversion_processedCount (convert : Converter) (s : ConverterState) :
    (startConversion convert s).processedCount
      = (filesToProcess s).countP (convertSucceeds convert) := by
  show ((filesToProcess s).foldl (runItem convert)
      { s with isProcessing := true, processedCount := 0 }).processedCount = _
  rw [foldl_runItem_processedCount]
  simp

/-- C2: one batch run over a collection with pairwise distinct ids marks
exactly the items whose conversion fails as ERROR with the recorded detail,
marks every other item COMPLETED, continues past each failure (the
characterization covers every item of the collection, whatever failed
before it), and never throws (the run is a total function). -/
theorem startConversion_error_isolation (convert : Converter) (s : ConverterState)
    (h : (s.files.map ImageFile.id).Nodup) :
    List.Forall₂
      (fun f g =>
        (f.status ≠ ConversionStatus.COMPLETED → convertSucceeds convert f = false →
          g.status = ConversionStatus.ERROR ∧ g.errorMessage = some "Failed") ∧
        (f.status = ConversionStatus.COMPLETED ∨ convertSucceeds convert f = true →
          g.status = ConversionStatus.COMPLETED))
      s.files (startConversion convert s).files := by
  rw [startConversion_files convert s h, List.forall₂_map_right_iff,
    List.forall₂_same]
  intro f hf
  by_cases hc : f.status = ConversionStatus.COMPLETED
  · rw [if_pos hc]
    exact ⟨fun hne _ => absurd hc hne, fun _ => hc⟩
  · rw [if_neg hc]
    cases hcv : convert f.file with
    | ok b =>
        constructor
        · intro _ hfail
          simp [convertSucceeds, hcv] at hfail
        · intro _
          simp [applyOutcome, hcv]
    | error e =>
        constructor
        · intro _ _
          simp [applyOutcome, hcv]
        · intro hdisj
          rcases hdisj with hcomp | hsucc
          · exact absurd hcomp hc
          · simp [convertSucceeds, hcv] at hsucc

/-- Witness for C2: five fresh items of which exactly the third is
undecodable yield four COMPLETED items and one ERROR item after one run. -/
theorem startConversion_error_isolation_witness :
    (fiveItemState.files.map ImageFile.id).Nodup ∧
    List.Forall₂
      (fun f g =>
        (f.status ≠ ConversionStatus.COMPLETED →
            convertSucceeds convThird f = false →
          g.status = ConversionStatus.ERROR ∧ g.errorMessage = some "Failed") ∧
        (f.status = ConversionStatus.COMPLETED ∨
            convertSucceeds convThird f = true →
          g.status = ConversionStatus.COMPLETED))
      fiveItemState.files (startConversion convThird fiveItemState).files ∧
    ((startConversion convThird fiveItemState).files.countP
        (fun f => decide (f.status = ConversionStatus.COMPLETED)) = 4 ∧
      (startConversion convThird fiveItemState).files.countP
        (fun f => decide (f.status = ConversionStatus.ERROR)) = 1) :=
  ⟨by decide,
   startConversion_error_isolation convThird fiveItemState (by decide),
   by decide⟩

/-- C3: a later run over the same collection skips every already COMPLETED
item — such an item is excluded by the snapshot filter and its entry,
including the recorded payload and size, is returned unchanged. -/
theorem startConversion_skips_completed (convert : Converter) (s : ConverterState)
    (h : (s.files.map ImageFile.id).Nodup) :
    List.Forall₂
      (fun f g => f.status = ConversionStatus.COMPLETED →
        f ∉ filesToProcess s ∧ g = f)
      s.files (startConversion convert s).files := by
  rw [startConversion_files convert s h, List.forall₂_map_right_iff,
    List.forall₂_same]
  intro f _ hc
  refine ⟨fun hmem => ?_, by rw [if_pos hc]⟩
  have hp := List.of_mem_filter hmem
  simp [hc] at hp

/-- Witness for C3: a collection with one COMPLETED item and one IDLE item,
re-run with an everywhere-successful converter. -/
theorem startConversion_skips_completed_witness :
    (mixedState.files.map ImageFile.id).Nodup ∧
    List.Forall₂
      (fun f g => f.status = ConversionStatus.COMPLETED →
        f ∉ filesToProcess mixedState ∧ g = f)
      mixedState.files (startConversion convOK mixedState).files :=
  ⟨by decide, startConversion_skips_completed convOK mixedState (by decide)⟩

/-- C5 counterexample: a single-item collection whose conversion fails is
processed (one failure, zero successes), yet the processed counter ends at
0, not at the claimed successes-plus-failures total of 1. -/
theorem startConversion_processedCount_cex :
    (startConversion convFail oneItemState).processedCount = 0 ∧
    (startConversion convFail oneItemState).files.countP
      (fun f => decide (f.status = ConversionStatus.ERROR)) = 1 := by
  decide

/-! ## Work-item invariant along a run -/

/-- Unfolding of the freshness test into its four field facts. -/
theorem itemFresh_fields (f : ImageFile) (h : itemFresh f = true) :
    f.status = ConversionStatus.IDLE ∧ f.convertedBlob = none ∧
      f.convertedSize = none ∧ f.errorMessage = none := by
  simpa [itemFresh, and_assoc] using h

/-- A freshly ingested item satisfies the invariant. -/
theorem itemFresh_wellFormed (f : ImageFile) (h : itemFresh f = true) :
    itemWellFormed f = true := by
  obtain ⟨hs, hb, hz, hm⟩ := itemFresh_fields f h
  simp [itemWellFormed, hs, hb, hz, hm]

/-- Every collection observed while the loop runs over a pairwise-distinct,
not-yet-processed snapshot of fresh items satisfies the invariant. -/
theorem traceAux_wellFormed (convert : Converter) :
    ∀ (L F : List ImageFile),
      (L.map ImageFile.id).Nodup →
      (∀ f ∈ F, itemWellFormed f = true) →
      (∀ f ∈ F, f.id ∈ L.map ImageFile.id → itemFresh f = true) →
      ∀ G ∈ conversionTraceAux convert F L, ∀ f ∈ G, itemWellFormed f = true
  | [], _, _, _, _ => by simp [conversionTraceAux]
  | item :: rest, F, hnd, hwf, hfresh => by
    simp only [List.map_cons, List.nodup_cons] at hnd
    have hA : ∀ f ∈ markProcessing item.id F,
        (itemWellFormed f = true ∧
          (f.id = item.id → f.status = ConversionStatus.PROCESSING ∧
            f.convertedBlob = none ∧ f.convertedSize = none ∧
            f.errorMessage = none)) ∧
        (f.id ∈ rest.map ImageFile.id → itemFresh f = true) := by
      intro f hf
      obtain ⟨f0, hf0, rfl⟩ := List.mem_map.mp hf
      by_cases hid : f0.id = item.id
      · have hfr := itemFresh_fields f0
          (hfresh f0 hf0 (by simp [hid]))
        rw [if_pos hid]
        refine ⟨⟨by simp [itemWellFormed, hfr.2.1, hfr.2.2.1, hfr.2.2.2],
          fun _ => by simp [hfr.2.1, hfr.2.2.1, hfr.2.2.2]⟩, fun hmem => ?_⟩
        exact absurd (by simpa [hid] using hmem) hnd.1
      · rw [if_neg hid]
        exact ⟨⟨hwf f0 hf0, fun hcon => absurd hcon hid⟩,
          fun hmem => hfresh f0 hf0 (by simp [hmem])⟩
    have hB : ∀ f ∈ (match convert item.file with
          | .ok b => markCompleted item.id b (markProcessing item.id F)
          | .error _ => markError item.id (markProcessing item.id F)),
        itemWellFormed f = true ∧
          (f.id ∈ rest.map ImageFile.id → itemFresh f = true) := by
      cases hcv : convert item.file with
      | ok b =>
        intro f hf
        obtain ⟨f1, hf1, rfl⟩ := List.mem_map.mp hf
        by_cases hid : f1.id = item.id
        · obtain ⟨⟨_, hproc⟩, _⟩ := hA f1 hf1
          obtain ⟨_, hb1, hz1, hm1⟩ := hproc hid
          rw [if_pos hid]
          refine ⟨by simp [itemWellFormed, hm1], fun hmem => ?_⟩
          exact absurd (by simpa [hid] using hmem) hnd.1
        · rw [if_neg hid]
          exact (hA f1 hf1).1.1 |> fun hw => ⟨hw, (hA f1 hf1).2⟩
      | error e =>
        intro f hf
        obtain ⟨f1, hf1, rfl⟩ := List.mem_map.mp hf
        by_cases hid : f1.id = item.id
        · obtain ⟨⟨_, hproc⟩, _⟩ := hA f1 hf1
          obtain ⟨_, hb1, hz1, hm1⟩ := hproc hid
          rw [if_pos hid]
          refine ⟨by simp [itemWellFormed, hb1, hz1], fun hmem => ?_⟩
          exact absurd (by simpa [hid] using hmem) hnd.1
        · rw [if_neg hid]
          exact ⟨(hA f1 hf1).1.1, (hA f1 hf1).2⟩
    intro G hG
    simp only [conversionTraceAux, List.mem_cons] at hG
    rcases hG with rfl | hG
    · exact fun f hf => ((hA f hf).1).1
    rcases hG with rfl | hG
    · exact fun f hf => (hB f hf).1
    · exact traceAux_wellFormed convert rest _ hnd.2
        (fun f hf => (hB f hf).1) (fun f hf => (hB f hf).2) G hG

/-- C4 (amended): over a freshly ingested collection with pairwise distinct
ids, every collection observable during one run — after each PROCESSING
transition and after each outcome transition — and the final collection
satisfy the invariant: payload-plus-size exactly on COMPLETED items, error
detail exactly on ERROR items, nothing on IDLE and PROCESSING items.  The
original claim over retry runs is refuted by
`startConversion_retry_invariant_cex`. -/
theorem conversionTrace_wellFormed (convert : Converter) (s : ConverterState)
    (hnd : (s.files.map ImageFile.id).Nodup)
    (hfresh : ∀ f ∈ s.files, itemFresh f = true) :
    (∀ G ∈ conversionTrace convert s, ∀ f ∈ G, itemWellFormed f = true) ∧
    (∀ f ∈ (startConversion convert s).files, itemWellFormed f = true) := by
  constructor
  · intro G hG
    simp only [conversionTrace, List.mem_cons] at hG
    rcases hG with rfl | hG
    · exact fun f hf => itemFresh_wellFormed f (hfresh f hf)
    · refine traceAux_wellFormed convert (filesToProcess s) s.files
        (List.Nodup.sublist
          (List.Sublist.map ImageFile.id (List.filter_sublist s.files)) hnd)
        (fun f hf => itemFresh_wellFormed f (hfresh f hf))
        (fun f hf _ => hfresh f hf) G hG
  · intro f hf
    rw [startConversion_files convert s hnd] at hf
    obtain ⟨f0, hf0, rfl⟩ := List.mem_map.mp hf
    obtain ⟨hs, hb, hz, hm⟩ := itemFresh_fields f0 (hfresh f0 hf0)
    rw [if_neg (by simp [hs])]
    cases hcv : convert f0.file with
    | ok b => simp [applyOutcome, hcv, itemWellFormed, hm]
    | error e => simp [applyOutcome, hcv, itemWellFormed, hb, hz]

/-- Witness for C4 (amended): the five-item fresh collection run with the
converter that rejects the third item. -/
theorem conversionTrace_wellFormed_witness :
    (fiveItemState.files.map ImageFile.id).Nodup ∧
    (∀ f ∈ fiveItemState.files, itemFresh f = true) ∧
    ((∀ G ∈ conversionTrace convThird fiveItemState,
        ∀ f ∈ G, itemWellFormed f = true) ∧
      (∀ f ∈ (startConversion convThird fiveItemState).files,
        itemWellFormed f = true)) :=
  ⟨by decide, by decide,
    conversionTrace_wellFormed convThird fiveItemState (by decide) (by decide)⟩

/-- C4 counterexample: an item that errors in one run and is retried
successfully in a later run ends COMPLETED while still carrying the stale
error detail next to its recorded payload, violating the
exactly-one-of invariant on a reachable collection state. -/
theorem startConversion_retry_invariant_cex :
    ((startConversion convOK (startConversion convFail oneItemState)).files.all
        itemWellFormed) = false ∧
    ((startConversion convOK (startConversion convFail oneItemState)).files.getD
        0 dummyItem).status = ConversionStatus.COMPLETED ∧
    ((startConversion convOK (startConversion convFail oneItemState)).files.getD
        0 dummyItem).convertedBlob = some ⟨101, 7⟩ ∧
    ((startConversion convOK (startConversion convFail oneItemState)).files.getD
        0 dummyItem).errorMessage = some "Failed" := by
  decide

/-! ## Ingest ids -/

/-- Every id of an ingested batch is the digest of one draw of its index
window. -/
theorem ingestItems_mem_id (draws : Nat → ℚ) :
    ∀ (files : List File) (k : Nat) (x : ℤ),
      x ∈ (ingestItems draws k files).map ImageFile.id →
      ∃ i, k ≤ i ∧ i < k + files.length ∧ x = generateId (draws i)
  | [], _, _, h => by simp [ingestItems] at h
  | _ :: rest, k, x, h => by
    simp only [ingestItems, List.map_cons, List.mem_cons] at h
    rcases h with rfl | h
    · exact ⟨k, le_refl k, by simp, rfl⟩
    · obtain ⟨i, hki, hlt, hx⟩ := ingestItems_mem_id draws rest (k + 1) x h
      exact ⟨i, by omega, by simp; omega, hx⟩

/-- When the digests of the draws of the batch window are pairwise
distinct, the ingested ids are pairwise distinct. -/
theorem ingestItems_nodup (draws : Nat → ℚ) :
    ∀ (files : List File) (k : Nat),
      (∀ i j, k ≤ i → i < k + files.length → k ≤ j → j < k + files.length →
        i ≠ j → generateId (draws i) ≠ generateId (draws j)) →
      ((ingestItems draws k files).map ImageFile.id).Nodup
  | [], _, _ => by simp [ingestItems]
  | _ :: rest, k, hinj => by
    simp only [ingestItems, List.map_cons, List.nodup_cons]
    constructor
    · intro hmem
      obtain ⟨i, hki, hlt, hx⟩ := ingestItems_mem_id draws rest (k + 1) _ hmem
      have : i ≠ k := by omega
      exact hinj i k (by omega) (by simp at hlt ⊢; omega) (le_refl k)
        (by simp) this hx.symm
    · exact ingestItems_nodup draws rest (k + 1) fun i j hi hi2 hj hj2 hij =>
        hinj i j (by omega) (by simp at hi2 ⊢; omega) (by omega)
          (by simp at hj2 ⊢; omega) hij

/-- Every ingested item wraps one of the added files. -/
theorem ingestItems_mem (draws : Nat → ℚ) :
    ∀ (files : List File) (k : Nat) (item : ImageFile),
      item ∈ ingestItems draws k files → item.file ∈ files
  | [], _, _, h => by simp [ingestItems] at h
  | _ :: rest, k, item, h => by
    simp only [ingestItems, List.mem_cons] at h
    rcases h with rfl | h
    · exact List.mem_cons_self _ _
    · exact List.mem_cons_of_mem _ (ingestItems_mem draws rest (k + 1) item h)

/-- One loop iteration never changes the sequence of ids. -/
theorem runItem_map_id (convert : Converter) (s : ConverterState)
    (item : ImageFile) :
    (runItem convert s item).files.map ImageFile.id
      = s.files.map ImageFile.id := by
  rw [runItem_files, List.map_map]
  refine List.map_congr_left fun f _ => ?_
  by_cases hid : f.id = item.id <;>
    simp [Function.comp, hid, applyOutcome_id]

/-- The whole loop never changes the sequence of ids. -/
theorem foldl_runItem_map_id (convert : Converter) :
    ∀ (L : List ImageFile) (s : ConverterState),
      (L.foldl (runItem convert) s).files.map ImageFile.id
        = s.files.map ImageFile.id
  | [], _ => rfl
  | item :: rest, s => by
    rw [List.foldl_cons, foldl_runItem_map_id convert rest, runItem_map_id]

/-- C9 counterexample: two distinct items ingested while the pseudo-random
source repeats the same value receive the same id — the code guarantees no
uniqueness. -/
theorem generateId_collision_cex :
    (handleFilesAdded constantDraws [fileA, fileB] []).length = 2 ∧
    ((handleFilesAdded constantDraws [fileA, fileB] []).getD 0 dummyItem).file.name
      ≠ ((handleFilesAdded constantDraws [fileA, fileB] []).getD 1 dummyItem).file.name ∧
    ((handleFilesAdded constantDraws [fileA, fileB] []).getD 0 dummyItem).id
      = ((handleFilesAdded constantDraws [fileA, fileB] []).getD 1 dummyItem).id :=
  ⟨rfl, by decide, rfl⟩

/-- C9 (amended): an id is assigned at ingest as a digest of the drawn
pseudo-random value and never mutated afterwards — a conversion run
preserves the id sequence — and ids are pairwise distinct across all items
ever added provided the digests of the underlying draws are pairwise
distinct (which the code does not guarantee, see
`generateId_collision_cex`). -/
theorem generateId_stability_and_uniqueness (draws : Nat → ℚ)
    (newFiles : List File) (prev : List ImageFile) (convert : Converter)
    (s : ConverterState)
    (hprev : (prev.map ImageFile.id).Nodup)
    (hinj : ∀ i j, i < newFiles.length → j < newFiles.length → i ≠ j →
      generateId (draws i) ≠ generateId (draws j))
    (hdisj : ∀ f ∈ prev, ∀ i, i < newFiles.length →
      f.id ≠ generateId (draws i)) :
    ((handleFilesAdded draws newFiles prev).map ImageFile.id).Nodup ∧
    (startConversion convert s).files.map ImageFile.id
      = s.files.map ImageFile.id := by
  constructor
  · unfold handleFilesAdded
    rw [List.map_append, List.nodup_append]
    refine ⟨hprev, ingestItems_nodup draws newFiles 0
      (fun i j hi hi2 hj hj2 hij => hinj i j (by omega) (by omega) hij), ?_⟩
    intro x hx hx2
    obtain ⟨i, _, hlt, rfl⟩ := ingestItems_mem_id draws newFiles 0 x hx2
    obtain ⟨f, hf, hfx⟩ := List.mem_map.mp hx
    exact hdisj f hf i (by omega) hfx
  · show ((filesToProcess s).foldl (runItem convert)
        { s with isProcessing := true, processedCount := 0 }).files.map
        ImageFile.id = _
    rw [foldl_runItem_map_id]

/-- Witness for C9 (amended): two files ingested over an empty collection
with draws 0 and 1/2, whose digests differ, plus a stability instance. -/
theorem generateId_stability_and_uniqueness_witness :
    (((List.nil : List ImageFile).map ImageFile.id).Nodup ∧
      (∀ i j, i < ([fileA, fileB] : List File).length →
        j < ([fileA, fileB] : List File).length → i ≠ j →
        generateId (distinctDraws i) ≠ generateId (distinctDraws j)) ∧
      (∀ f ∈ (List.nil : List ImageFile), ∀ i,
        i < ([fileA, fileB] : List File).length →
        f.id ≠ generateId (distinctDraws i))) ∧
    (((handleFilesAdded distinctDraws [fileA, fileB] []).map ImageFile.id).Nodup ∧
      (startConversion convFail oneItemState).files.map ImageFile.id
        = oneItemState.files.map ImageFile.id) := by
  have hinj : ∀ i j, i < ([fileA, fileB] : List File).length →
      j < ([fileA, fileB] : List File).length → i ≠ j →
      generateId (distinctDraws i) ≠ generateId (distinctDraws j) := by
    intro i j hi hj hij
    have hi2 : i < 2 := by simpa using hi
    have hj2 : j < 2 := by simpa using hj
    interval_cases i <;> interval_cases j <;>
      simp_all [distinctDraws, generateId] <;> norm_num
  refine ⟨⟨by simp, hinj, by simp⟩, ?_⟩
  exact generateId_stability_and_uniqueness distinctDraws [fileA, fileB] []
    convFail oneItemState (by simp) hinj (by simp)

/-! ## Export packaging -/

/-- C8: downloadZip never writes the orchestrator state — the collection,
the processed counter and the running flag come back unchanged whether
archive generation succeeds or fails — and it raises exactly one
user-facing failure notification exactly when there was something to
export and archive generation failed. -/
theorem downloadZip_readonly (gen : ZipGen) (s : ConverterState) :
    (downloadZip gen s).state = s ∧
    (downloadZip gen s).alerts ≤ 1 ∧
    ((downloadZip gen s).alerts = 1 ↔
      (s.files.filter fun f =>
          decide (f.status = ConversionStatus.COMPLETED) &&
            f.convertedBlob.isSome) ≠ [] ∧
        ∃ e, gen (zipEntries s.files) = .error e) := by
  simp only [downloadZip]
  by_cases hempty : (s.files.filter fun f =>
      decide (f.status = ConversionStatus.COMPLETED) &&
        f.convertedBlob.isSome).length = 0
  · rw [if_pos hempty]
    refine ⟨rfl, by simp, ?_⟩
    simp only [List.length_eq_zero] at hempty
    simp [hempty]
  · rw [if_neg hempty]
    cases hgen : gen (zipEntries s.files) with
    | ok content =>
        refine ⟨rfl, by simp, ?_⟩
        simp [hgen]
    | error e =>
        refine ⟨rfl, by simp, ?_⟩
        simp only [List.length_eq_zero] at hempty
        simp [hgen, hempty]

/-! ## Ingest-time MIME filter -/

/-- C10: the dropzone admits a file exactly when its declared MIME type is
image/png or image/jpeg, raises at most one transient error notice — one
exactly when some file of the payload was rejected — and every work item
created from an admitted payload either predates the drop or wraps a file
of an admitted type. -/
theorem dropzone_admits_only_supported (fileList : List File)
    (draws : Nat → ℚ) (prev : List ImageFile) :
    (∀ f, f ∈ (validateAndAddFiles fileList).added ↔
      f ∈ fileList ∧ (f.mimeType = "image/png" ∨ f.mimeType = "image/jpeg")) ∧
    (validateAndAddFiles fileList).errorNotices ≤ 1 ∧
    ((validateAndAddFiles fileList).errorNotices = 1 ↔
      ∃ f ∈ fileList, f.mimeType ≠ "image/png" ∧ f.mimeType ≠ "image/jpeg") ∧
    ∀ item ∈ handleFilesAdded draws (validateAndAddFiles fileList).added prev,
      item ∈ prev ∨ item.file.mimeType = "image/png" ∨
        item.file.mimeType = "image/jpeg" := by
  refine ⟨?_, ?_, ?_, ?_⟩
  · intro f
    simp [validateAndAddFiles, List.mem_filter, isSupportedImageType]
  · simp only [validateAndAddFiles]
    split <;> omega
  · simp only [validateAndAddFiles]
    by_cases hinv : fileList.any (fun f => !(isSupportedImageType f)) = true
    · rw [if_pos hinv]
      refine ⟨fun _ => ?_, fun _ => rfl⟩
      obtain ⟨f, hf, hfn⟩ := List.any_eq_true.mp hinv
      rw [Bool.not_eq_true'] at hfn
      simp only [isSupportedImageType, Bool.or_eq_false_iff,
        decide_eq_false_iff_not] at hfn
      exact ⟨f, hf, hfn.1, hfn.2⟩
    · rw [if_neg hinv]
      constructor
      · omega
      · rintro ⟨f, hf, hfn1, hfn2⟩
        exfalso
        apply hinv
        simp only [List.any_eq_true]
        exact ⟨f, hf, by simp [isSupportedImageType, hfn1, hfn2]⟩
  · intro item hitem
    unfold handleFilesAdded at hitem
    rcases List.mem_append.mp hitem with hp | hn
    · exact Or.inl hp
    · right
      have hmem := ingestItems_mem draws _ 0 item hn
      have := (List.mem_filter.mp hmem).2
      simpa [isSupportedImageType] using this

/-! ## Folder grouping -/

/-- Effect of one record insertion on the members recorded under a key. -/
theorem valOf_addToGroups (key k : String) (f : File) :
    ∀ groups, valOf key (addToGroups groups k f)
      = if k = key then valOf key groups ++ [f] else valOf key groups
  | [] => by
      by_cases h : k = key <;> simp [addToGroups, valOf, h]
  | (k2, fs) :: rest => by
      by_cases h2 : k2 = k
      · subst h2
        by_cases hk : k2 = key
        · simp [addToGroups, valOf, hk]
        · simp [addToGroups, valOf, hk]
      · by_cases hk2 : k2 = key
        · have hk : k ≠ key := fun hc => h2 (hk2.trans hc.symm)
          subst hk2
          simp [addToGroups, valOf, h2, hk]
        · simp [addToGroups, valOf, h2, hk2, valOf_addToGroups key k f rest]

/-- A key of the record after an insertion is an old key or the inserted
key. -/
theorem mem_keys_addToGroups (x k : String) (f : File) :
    ∀ groups, x ∈ (addToGroups groups k f).map Prod.fst →
      x ∈ groups.map Prod.fst ∨ x = k
  | [] => by simp [addToGroups]
  | (k2, fs) :: rest => by
      intro h
      by_cases h2 : k2 = k
      · simp only [addToGroups] at h
        rw [if_pos h2] at h
        simp only [List.map_cons, List.mem_cons] at h
        rcases h with rfl | h
        · exact Or.inl (by simp)
        · exact Or.inl (by simp [h])
      · simp only [addToGroups] at h
        rw [if_neg h2] at h
        simp only [List.map_cons, List.mem_cons] at h
        rcases h with rfl | h
        · exact Or.inl (by simp)
        · rcases mem_keys_addToGroups x k f rest h with hm | hm
          · exact Or.inl (by simp [hm])
          · exact Or.inr hm

/-- Insertion preserves key uniqueness. -/
theorem nodup_keys_addToGroups (k : String) (f : File) :
    ∀ groups, (groups.map Prod.fst).Nodup →
      ((addToGroups groups k f).map Prod.fst).Nodup
  | [], _ => by simp [addToGroups]
  | (k2, fs) :: rest, h => by
      simp only [List.map_cons, List.nodup_cons] at h
      by_cases h2 : k2 = k
      · simp only [addToGroups, if_pos h2, List.map_cons, List.nodup_cons]
        exact h
      · simp only [addToGroups, if_neg h2, List.map_cons, List.nodup_cons]
        refine ⟨fun hmem => ?_, nodup_keys_addToGroups k f rest h.2⟩
        rcases mem_keys_addToGroups k2 k f rest hmem with hm | hm
        · exact h.1 hm
        · exact h2 hm

/-- Insertion grows the total member count by one. -/
theorem sum_addToGroups (k : String) (f : File) :
    ∀ groups, ((addToGroups groups k f).map fun e => e.2.length).sum
      = ((groups.map fun e => e.2.length).sum) + 1
  | [] => by simp [addToGroups]
  | (k2, fs) :: rest => by
      by_cases h2 : k2 = k <;>
        simp [addToGroups, h2, sum_addToGroups k f rest] <;> omega

/-- Characterization of the classifier run from any accumulator pair: each
key collects, in input order, exactly the grouped files whose first segment
is that key, and the loose files accumulate in input order. -/
theorem classifyAux_spec :
    ∀ (files : List File) (groups : List (String × List File))
      (roots : List File),
      (∀ key, valOf key (classifyAux files (groups, roots)).1
        = valOf key groups
            ++ files.filter fun f => isGrouped f && (rootSegment f == key)) ∧
      (classifyAux files (groups, roots)).2
        = roots ++ files.filter fun f => !(isGrouped f)
  | [], groups, roots => by simp [classifyAux]
  | f :: rest, groups, roots => by
      by_cases hg : isGrouped f = true
      · simp only [classifyAux, if_pos hg]
        constructor
        · intro key
          rw [(classifyAux_spec rest (addToGroups groups (rootSegment f) f)
            roots).1 key, valOf_addToGroups]
          by_cases hkey : rootSegment f = key
          · rw [if_pos hkey, List.filter_cons_of_pos (by simp [hg, hkey]),
              List.append_assoc, List.singleton_append]
          · rw [if_neg hkey, List.filter_cons_of_neg
              (by simp [hg]; intro hc; exact absurd (by simpa using hc) hkey)]
        · rw [(classifyAux_spec rest (addToGroups groups (rootSegment f) f)
            roots).2, List.filter_cons_of_neg (by simp [hg])]
      · simp only [classifyAux, if_neg hg]
        constructor
        · intro key
          rw [(classifyAux_spec rest groups (roots ++ [f])).1 key,
            List.filter_cons_of_neg (by simp [hg])]
        · rw [(classifyAux_spec rest groups (roots ++ [f])).2,
            List.filter_cons_of_pos (by simp [hg]), List.append_assoc,
            List.singleton_append]

/-- The classifier keeps group keys pairwise distinct. -/
theorem classifyAux_nodup_keys :
    ∀ (files : List File) (groups : List (String × List File))
      (roots : List File),
      (groups.map Prod.fst).Nodup →
      ((classifyAux files (groups, roots)).1.map Prod.fst).Nodup
  | [], _, _, h => h
  | f :: rest, groups, roots, h => by
      by_cases hg : isGrouped f = true
      · simp only [classifyAux, if_pos hg]
        exact classifyAux_nodup_keys rest _ roots
          (nodup_keys_addToGroups (rootSegment f) f groups h)
      · simp only [classifyAux, if_neg hg]
        exact classifyAux_nodup_keys rest groups _ h

/-- The classifier is counting-exact: group members plus loose files
account for every input file. -/
theorem classifyAux_count :
    ∀ (files : List File) (groups : List (String × List File))
      (roots : List File),
      ((classifyAux files (groups, roots)).1.map fun e => e.2.length).sum
          + (classifyAux files (groups, roots)).2.length
        = (groups.map fun e => e.2.length).sum + roots.length + files.length
  | [], _, _ => by simp [classifyAux]
  | f :: rest, groups, roots => by
      by_cases hg : isGrouped f = true
      · simp only [classifyAux, if_pos hg]
        rw [classifyAux_count rest _ roots, sum_addToGroups]
        simp
        omega
      · simp only [classifyAux, if_neg hg]
        rw [classifyAux_count rest groups _]
        simp
        omega

/-- With pairwise distinct keys, the members recorded under the key of a
group entry are exactly the members stored in that entry. -/
theorem valOf_mem_of_nodup :
    ∀ (groups : List (String × List File)),
      (groups.map Prod.fst).Nodup →
      ∀ e ∈ groups, valOf e.1 groups = e.2
  | [], _, e, he => absurd he (List.not_mem_nil e)
  | (k2, fs) :: rest, h, e, he => by
      simp only [List.map_cons, List.nodup_cons] at h
      rcases List.mem_cons.mp he with rfl | he
      · simp [valOf]
      · have hne : k2 ≠ e.1 := fun hc => h.1 (by
          rw [hc]
          exact List.mem_map.mpr ⟨e, he, rfl⟩)
        simp only [valOf, if_neg hne]
        exact valOf_mem_of_nodup rest h.2 e he

/-- Every produced task wraps the member list of one named group. -/
theorem tasksOf_mem (gen : Nat → ℤ) :
    ∀ (groups : List (String × List File)) (k : Nat) (t : ZipTask),
      t ∈ tasksOf gen k groups →
      ∃ e ∈ groups, t.folderName = e.1 ∧ t.files = e.2
  | [], _, t, h => by simp [tasksOf] at h
  | (name, fs) :: rest, k, t, h => by
      rcases List.mem_cons.mp h with rfl | h
      · exact ⟨(name, fs), List.mem_cons_self _ _, rfl, rfl⟩
      · obtain ⟨e, he, hne⟩ := tasksOf_mem gen rest (k + 1) t h
        exact ⟨e, List.mem_cons_of_mem _ he, hne⟩

/-- The classifier keeps the group keys pairwise distinct. -/
theorem classify_nodup_keys (files : List File) :
    ((classify files).1.map Prod.fst).Nodup :=
  classifyAux_nodup_keys files [] [] (by simp)

/-- The members of the group under any key are the order-preserving filter
of the input to the grouped files carrying that first segment. -/
theorem classify_valOf (files : List File) (key : String) :
    valOf key (classify files).1
      = files.filter fun f => isGrouped f && (rootSegment f == key) := by
  have := (classifyAux_spec files [] []).1 key
  simpa [valOf] using this

/-- The loose files are the order-preserving filter of the input to the
single-segment paths. -/
theorem classify_roots (files : List File) :
    (classify files).2 = files.filter fun f => !(isGrouped f) := by
  have := (classifyAux_spec files [] []).2
  simpa [classify] using this

/-- Group members plus loose files account for every input file. -/
theorem classify_count (files : List File) :
    ((classify files).1.map fun e => e.2.length).sum
        + (classify files).2.length = files.length := by
  have := classifyAux_count files [] []
  simpa [classify] using this

/-- C6: the grouping classifier assigns each file whose relative path has
more than one segment to exactly one group — the group keyed by its first
path segment, the keys being pairwise distinct — preserves the input order
of files within each group (each group is an order-preserving filter of the
input), and partitions the input: group members plus loose files count up
to the number of dropped files. -/
theorem classify_partition (files : List File) :
    ((classify files).1.map Prod.fst).Nodup ∧
    (∀ key, valOf key (classify files).1
      = files.filter fun f => isGrouped f && (rootSegment f == key)) ∧
    ((classify files).2 = files.filter fun f => !(isGrouped f)) ∧
    (∀ f ∈ files, isGrouped f = true →
      f ∈ valOf (rootSegment f) (classify files).1 ∧
      ∀ e ∈ (classify files).1, f ∈ e.2 → e.1 = rootSegment f) ∧
    (((classify files).1.map fun e => e.2.length).sum
        + (classify files).2.length = files.length) := by
  refine ⟨classify_nodup_keys files, classify_valOf files,
    classify_roots files, ?_, classify_count files⟩
  intro f hf hg
  constructor
  · rw [classify_valOf files (rootSegment f)]
    exact List.mem_filter.mpr ⟨hf, by simp [hg]⟩
  · intro e he hmem
    rw [← valOf_mem_of_nodup (classify files).1 (classify_nodup_keys files)
      e he, classify_valOf files e.1] at hmem
    have := List.of_mem_filter hmem
    simp only [Bool.and_eq_true, beq_iff_eq] at this
    exact this.2.symm

/-- C7 counterexample: a loose single-segment file produces no task at all
— handleFoldersAdded returns nothing that records it, so the classifier
result surfaced to the caller discards the ungrouped file instead of
reporting it. -/
theorem handleFoldersAdded_drops_loose_cex :
    handleFoldersAdded taskIds [looseFile] = [] ∧
    (classify [looseFile]).2 = [looseFile] ∧
    ¬ ∃ t ∈ handleFoldersAdded taskIds [looseFile], looseFile ∈ t.files := by
  have h1 : handleFoldersAdded taskIds [looseFile] = [] := by decide
  refine ⟨h1, by decide, ?_⟩
  rintro ⟨t, ht, _⟩
  rw [h1] at ht
  simp at ht

/-- C7 (amended): a file with a single-segment relative path is excluded
from every named group — it lands in the internal rootFiles accumulator and
appears in the member list of no produced task — but handleFoldersAdded
never surfaces that accumulator: its only output is the task list, so the
caller observes nothing about the ungrouped file (see
`handleFoldersAdded_drops_loose_cex`). -/
theorem handleFoldersAdded_excludes_ungrouped (gen : Nat → ℤ)
    (files : List File) (f : File) (hf : f ∈ files)
    (hu : isGrouped f = false) :
    f ∈ (classify files).2 ∧
    ∀ t ∈ handleFoldersAdded gen files, f ∉ t.files := by
  constructor
  · rw [classify_roots files]
    exact List.mem_filter.mpr ⟨hf, by simp [hu]⟩
  · intro t ht hmem
    obtain ⟨e, he, _, hfiles⟩ := tasksOf_mem gen (classify files).1 0 t ht
    rw [hfiles, ← valOf_mem_of_nodup (classify files).1
      (classify_nodup_keys files) e he, classify_valOf files e.1] at hmem
    have := List.of_mem_filter hmem
    simp [hu] at this

/-- Witness for C7 (amended): a drop containing one loose file and one file
inside FolderA. -/
theorem handleFoldersAdded_excludes_ungrouped_witness :
    (looseFile ∈ [looseFile, groupedFile] ∧ isGrouped looseFile = false) ∧
    (looseFile ∈ (classify [looseFile, groupedFile]).2 ∧
      ∀ t ∈ handleFoldersAdded taskIds [looseFile, groupedFile],
        looseFile ∉ t.files) :=
  ⟨⟨by decide, by decide⟩,
    handleFoldersAdded_excludes_ungrouped taskIds [looseFile, groupedFile]
      looseFile (by decide) (by decide)⟩

end PixelZip
